import Mathlib

/-! # Statistics helpers of the blog list application (`utils/list_helper.js`)

A shallow embedding of the five exported functions `dummy`, `totalLikes`,
`favoriteBlog`, `mostBlogs` and `mostLikes`, together with the fragment of
JavaScript semantics they rely on:

* numbers: the `likes` of a record is an integer-valued `Number`.  The
  numbers the code computes are integers, `NaN` and the two infinities
  (`JSNum`).  Addition is the addition of IEEE 754 doubles: the exact sum is
  rounded to the nearest double, ties to even, and overflows to an infinity
  (`roundDouble`); it is exact as long as the sum stays within `2^53` in
  absolute value.  Comparisons are exact;
* plain objects used as dictionaries (`{}`): own properties, the properties
  inherited from `Object.prototype`, the `__proto__` accessor, and the order
  in which `Object.keys` / `Object.values` enumerate own properties
  (array-index keys in ascending numeric order, then the other keys in
  creation order);
* the implicit globals `favorite` and `maxIndex` the functions assign to
  (the file is a CommonJS module in sloppy mode, so an assignment to an
  undeclared identifier creates or overwrites a property of the global object);
* exceptions: reading a property of `undefined` throws a `TypeError`.
-/

namespace ListHelper

/-! ## Data model -/

/-- A blog record as the helpers see it: the fields they read.  `likes` is
an integer-valued `Number`. -/
structure Blog where
  title : String
  author : String
  url : String
  likes : Int
deriving DecidableEq, Repr

/-- The numbers that occur: integers, `NaN`, `-Infinity` and `Infinity`. -/
inductive JSNum where
  | int (n : Int)
  | nan
  | negInf
  | posInf
deriving DecidableEq, Repr

/-- The values a property lookup on the accumulator object can produce.
`str` stands for a string obtained by concatenating the source text of a
built-in (`"function Object() { [native code] }"`, `"[object Object]"`) with
further text: such a string is non-empty and is not a numeric literal.
`builtin` stands for a member of `Object.prototype` (a function object, or
for `__proto__` the prototype object itself). -/
inductive JSVal where
  | undefined
  | num (x : JSNum)
  | str
  | builtin
deriving DecidableEq, Repr

/-- The exceptions that occur. -/
inductive JSError where
  | typeError
deriving DecidableEq, Repr

/-- The two implicit globals the module writes.  `none` is "not assigned by
this module so far"; the inner value of `favorite` is what `Array.find`
returned (`none` for `undefined`). -/
structure Globals where
  favorite : Option (Option Blog)
  maxIndex : Option Int
deriving DecidableEq, Repr

/-- The object literal returned by `favoriteBlog`. -/
structure Favorite where
  title : String
  author : String
  likes : Int
deriving DecidableEq, Repr

/-- The object literal returned by `mostBlogs`; `author` is `none` when the
key lookup yields `undefined`. -/
structure AuthorBlogs where
  author : Option String
  blogs : JSNum
deriving DecidableEq, Repr

/-- The object literal returned by `mostLikes`; `author` is `none` when the
key lookup yields `undefined`. -/
structure AuthorLikes where
  author : Option String
  likes : JSNum
deriving DecidableEq, Repr

/-! ## JavaScript primitives -/

/-- `ToBoolean`. -/
def truthy : JSVal → Bool
  | .undefined => false
  | .num (.int n) => n ≠ 0
  | .num .nan => false
  | .num .negInf => true
  | .num .posInf => true
  | .str => true
  | .builtin => true

/-- `ToNumber`: a function object, `Object.prototype` and the strings built
from them all convert to `NaN`. -/
def toNumber : JSVal → JSNum
  | .undefined => .nan
  | .num x => x
  | .str => .nan
  | .builtin => .nan

/-- The distance between neighbouring doubles at magnitude `a`: `1` below
`2^53`, doubling with each further binary digit.  The first argument bounds
the number of doublings; `1024` of them cover every magnitude below the
overflow threshold. -/
def spacing : Nat → Nat → Nat
  | 0, _ => 1
  | fuel + 1, a => if a < 2 ^ 53 then 1 else 2 * spacing fuel (a / 2)

/-- The magnitude `a` rounded to a multiple of the spacing at `a`, to the
nearest one and on a tie to the one with an even 53-bit significand. -/
def roundNat (a : Nat) : Nat :=
  let q := spacing 1024 a
  let k := a / q
  let r := a % q
  if 2 * r < q ∨ (2 * r = q ∧ k % 2 = 0) then k * q else (k + 1) * q

/-- The overflow threshold of doubles, `2^1024`. -/
def overflowBound : Nat := (2 ^ 256) ^ 4

/-- The double nearest to the integer `x` (round to nearest, ties to even):
`x` itself up to `2^53` in absolute value, an infinity when the rounded
magnitude reaches `2^1024`. -/
def roundDouble (x : Int) : JSNum :=
  if overflowBound ≤ roundNat x.natAbs then (if x < 0 then .negInf else .posInf)
  else .int (if x < 0 then -(roundNat x.natAbs : Int) else (roundNat x.natAbs : Int))

/-- Number addition `x + n` with an integer right operand: the exact sum
rounded to a double. -/
def JSNum.add : JSNum → Int → JSNum
  | .int m, n => roundDouble (m + n)
  | .nan, _ => .nan
  | .negInf, _ => .negInf
  | .posInf, _ => .posInf

/-- The operator `v + n` for an integer `n`: numeric addition when `v` is a
number, `NaN` for `undefined`, string concatenation when `ToPrimitive v` is a
string. -/
def plus : JSVal → Int → JSVal
  | .undefined, _ => .num .nan
  | .num x, n => .num (x.add n)
  | .str, _ => .str
  | .builtin, _ => .str

/-- The successor `x + 1` of a number that counts the elements of an array
seen so far: an array has fewer than `2^32` elements, so the sum is exact. -/
def JSNum.succ : JSNum → JSNum
  | .int m => .int (m + 1)
  | .nan => .nan
  | .negInf => .negInf
  | .posInf => .posInf

/-- Prefix increment `++v`: `ToNumber v + 1`.  The only numbers the code
increments are occurrence counts. -/
def increment (v : JSVal) : JSVal := .num (toNumber v).succ

/-- The larger of two numbers as `Math.max` computes it: `NaN` is
contagious and `-Infinity` is the neutral element. -/
def JSNum.max : JSNum → JSNum → JSNum
  | .nan, _ => .nan
  | _, .nan => .nan
  | .posInf, _ => .posInf
  | _, .posInf => .posInf
  | .negInf, y => y
  | x, .negInf => x
  | .int m, .int n => .int (Max.max m n)

/-- `Math.max(...xs)` on already converted arguments; `-Infinity` without
arguments. -/
def mathMax : List JSNum → JSNum
  | [] => .negInf
  | x :: xs => x.max (mathMax xs)

/-- Strict equality `v === x` of a value with a number: `NaN` equals
nothing, a non-number never equals a number. -/
def strictEq : JSVal → JSNum → Bool
  | .num (.int m), .int n => m = n
  | .num .negInf, .negInf => true
  | .num .posInf, .posInf => true
  | _, _ => false

/-- `xs.indexOf(x)` by position, counting from `i`. -/
def indexOfFrom : List JSVal → JSNum → Int → Int
  | [], _, _ => -1
  | v :: vs, x, i => if strictEq v x then i else indexOfFrom vs x (i + 1)

/-- `xs.indexOf(x)`: first position whose element is strictly equal to `x`,
`-1` when there is none. -/
def indexOf (xs : List JSVal) (x : JSNum) : Int := indexOfFrom xs x 0

/-- `keys[i]` for an integer `i`: `undefined` outside the array. -/
def keyAt (keys : List String) (i : Int) : Option String :=
  if i < 0 then none else keys.get? i.toNat

/-- `l >= m` for an integer `l`. -/
def geNum (l : Int) : JSNum → Bool
  | .int n => n ≤ l
  | .nan => false
  | .negInf => true
  | .posInf => false

/-- The comparison `x <= y` of two numbers: false as soon as one side is
`NaN`. -/
def JSNum.le : JSNum → JSNum → Bool
  | .int m, .int n => m ≤ n
  | .negInf, .int _ => true
  | .negInf, .negInf => true
  | .negInf, .posInf => true
  | .int _, .posInf => true
  | .posInf, .posInf => true
  | _, _ => false

/-! ## Plain objects -/

/-- The own enumerable string-keyed properties of an object created by `{}`,
in creation order. -/
abbrev JSObject := List (String × JSVal)

/-- The property names of `Object.prototype`. -/
def objectPrototypeKeys : List String :=
  ["constructor", "__defineGetter__", "__defineSetter__", "hasOwnProperty",
   "__lookupGetter__", "__lookupSetter__", "isPrototypeOf", "propertyIsEnumerable",
   "toString", "valueOf", "__proto__", "toLocaleString"]

/-- Own property lookup. -/
def getOwn : JSObject → String → Option JSVal
  | [], _ => none
  | (k', v) :: rest, k => if k' = k then some v else getOwn rest k

/-- The read `o[k]`: the own property, else the one inherited from
`Object.prototype`, else `undefined`. -/
def getProp (o : JSObject) (k : String) : JSVal :=
  match getOwn o k with
  | some v => v
  | none => if k ∈ objectPrototypeKeys then .builtin else .undefined

/-- Writing an own data property: an existing one keeps its place, a new one
is created last. -/
def setOwn : JSObject → String → JSVal → JSObject
  | [], k, v => [(k, v)]
  | (k', v') :: rest, k, v =>
    if k' = k then (k', v) :: rest else (k', v') :: setOwn rest k v

/-- The write `o[k] = v` of a primitive `v`: `__proto__` is an accessor whose
setter ignores primitives; every other inherited property is a writable data
property, so the write creates or updates an own property. -/
def setProp (o : JSObject) (k : String) (v : JSVal) : JSObject :=
  if k = "__proto__" then o else setOwn o k v

/-- Value of a string of decimal digits. -/
def digitsValue (cs : List Char) : Nat :=
  cs.foldl (fun n c => 10 * n + (c.toNat - 48)) 0

/-- The array index a property key denotes, if any: the key is the canonical
decimal numeral of an integer up to `2^32 - 2`, that is, it is made of digits
and printing its value gives the key back (no sign, no leading zero). -/
def arrayIndex (k : String) : Option Nat :=
  if k.data.all Char.isDigit ∧ digitsValue k.data ≤ 4294967294
      ∧ Nat.repr (digitsValue k.data) = k
  then some (digitsValue k.data) else none

/-- The own properties whose key is an array index, with that index. -/
def indexEntries (o : JSObject) : List (Nat × String × JSVal) :=
  o.filterMap (fun p => (arrayIndex p.1).map (fun i => (i, p)))

/-- The own properties in enumeration order (`OrdinaryOwnPropertyKeys`):
array-index keys in ascending numeric order, then the others in creation
order. -/
def ownEntries (o : JSObject) : List (String × JSVal) :=
  ((indexEntries o).insertionSort (fun a b => a.1 ≤ b.1)).map Prod.snd
    ++ o.filter (fun p => (arrayIndex p.1).isNone)

/-- `Object.keys(o)`. -/
def objectKeys (o : JSObject) : List String := (ownEntries o).map Prod.fst

/-- `Object.values(o)`. -/
def objectValues (o : JSObject) : List JSVal := (ownEntries o).map Prod.snd

/-! ## The exported functions -/

/-- `dummy`: the constant `1`. -/
def dummy (_blogs : List Blog) : Int := 1

/-- `totalLikes`: `blogs.reduce((prev, curr) => prev + curr.likes, 0)`, each
addition rounding to a double. -/
def totalLikes (blogs : List Blog) : JSNum :=
  blogs.foldl (fun previousValue currentValue => previousValue.add currentValue.likes)
    (.int 0)

/-- `favoriteBlog`: the maximum of the likes, the first record reaching it
(stored in the global `favorite`), and the three fields read from it; reading
a field of `undefined` throws. -/
def favoriteBlog (blogs : List Blog) (g : Globals) : Except JSError Favorite × Globals :=
  let max := mathMax (blogs.map (fun blog => JSNum.int blog.likes))
  let favorite := blogs.find? (fun blog => geNum blog.likes max)
  let g' : Globals := { g with favorite := some favorite }
  match favorite with
  | none => (.error .typeError, g')
  | some f => (.ok { title := f.title, author := f.author, likes := f.likes }, g')

/-- The reducer of `mostBlogs`:
`acc[curr] ? ++acc[curr] : acc[curr] = 1, acc`. -/
def countStep (acc : JSObject) (curr : String) : JSObject :=
  if truthy (getProp acc curr) then setProp acc curr (increment (getProp acc curr))
  else setProp acc curr (.num (.int 1))

/-- `mostBlogs`: occurrences per author, their maximum, the position of the
maximum among the values (stored in the global `maxIndex`) and the key at
that position. -/
def mostBlogs (blogs : List Blog) (g : Globals) : Except JSError AuthorBlogs × Globals :=
  let occurrences := (blogs.map (fun blog => blog.author)).foldl countStep []
  let max := mathMax ((objectValues occurrences).map toNumber)
  let maxIndex := indexOf (objectValues occurrences) max
  (.ok { author := keyAt (objectKeys occurrences) maxIndex, blogs := max },
    { g with maxIndex := some maxIndex })

/-- The reducer of `mostLikes`:
`acc[curr.author] ? acc[curr.author] += curr.likes : acc[curr.author] = curr.likes, acc`. -/
def likesStep (acc : JSObject) (curr : Blog) : JSObject :=
  if truthy (getProp acc curr.author)
  then setProp acc curr.author (plus (getProp acc curr.author) curr.likes)
  else setProp acc curr.author (.num (.int curr.likes))

/-- `mostLikes`: likes per author, their maximum, the position of the maximum
among the values (stored in the global `maxIndex`) and the key at that
position. -/
def mostLikes (blogs : List Blog) (g : Globals) : Except JSError AuthorLikes × Globals :=
  let occurrences := (blogs.map (fun blog => blog)).foldl likesStep []
  let max := mathMax ((objectValues occurrences).map toNumber)
  let maxIndex := indexOf (objectValues occurrences) max
  (.ok { author := keyAt (objectKeys occurrences) maxIndex, likes := max },
    { g with maxIndex := some maxIndex })

/-! ## Vocabulary of the statements -/

deriving instance DecidableEq for Except

/-- The integer `n` is a double: rounding leaves it as it is. -/
def representable (n : Int) : Prop := roundDouble n = .int n

/-- Whether an integer is a double is decided by rounding it. -/
instance representableDecidable (n : Int) : Decidable (representable n) :=
  inferInstanceAs (Decidable (roundDouble n = .int n))

/-- Total weight attached to key `k` in a list of weighted keys. -/
def weight (k : String) (l : List (String × Int)) : Int :=
  ((l.filter (fun p => p.1 = k)).map Prod.snd).sum

/-- Number of records of `blogs` written by `a`. -/
def authorBlogs (a : String) (blogs : List Blog) : Nat :=
  (blogs.filter (fun b => b.author = a)).length

/-- Sum of the likes of the records of `blogs` written by `a`. -/
def authorLikes (a : String) (blogs : List Blog) : Int :=
  ((blogs.filter (fun b => b.author = a)).map (fun b => b.likes)).sum

/-- Position of the first record of `blogs` written by `a` (the length of
`blogs` when there is none). -/
def firstAppearance (a : String) (blogs : List Blog) : Nat :=
  (blogs.map (fun b => b.author)).indexOf a

/-- Enumeration order of two distinct keys of an object whose keys were
created in the order given by `created`: array-index keys first, by
ascending index; then the other keys, by creation. -/
def keyBefore (created : List String) (a b : String) : Prop :=
  match arrayIndex a, arrayIndex b with
  | some i, some j => i < j
  | some _, none => True
  | none, some _ => False
  | none, none => created.indexOf a < created.indexOf b

/-- The accumulator object after the weighted keys `l` have been tallied:
one own property per distinct key, holding the total weight of the key, the
keys in order of first occurrence. -/
structure Tally (l : List (String × Int)) (o : JSObject) : Prop where
  nodup : (o.map Prod.fst).Nodup
  mem : ∀ k, k ∈ o.map Prod.fst ↔ k ∈ l.map Prod.fst
  val : ∀ k ∈ l.map Prod.fst, getOwn o k = some (.num (.int (weight k l)))
  order : (o.map Prod.fst).Pairwise
    (fun a b => (l.map Prod.fst).indexOf a < (l.map Prod.fst).indexOf b)

/-- A state of the globals before any call. -/
def noGlobals : Globals := { favorite := none, maxIndex := none }

/-- Comparing indexed entries by index is total. -/
instance indexLe_total :
    IsTotal (Nat × String × JSVal) (fun a b => a.1 ≤ b.1) := ⟨fun a b => le_total a.1 b.1⟩

/-- Comparing indexed entries by index is transitive. -/
instance indexLe_trans :
    IsTrans (Nat × String × JSVal) (fun a b => a.1 ≤ b.1) := ⟨fun _ _ _ h1 h2 => le_trans h1 h2⟩

/-! ## Sample inputs -/

/-- Four records by three authors; the two records with most likes tie. -/
def sampleBlogs : List Blog :=
  [{ title := "First", author := "A", url := "a.example/1", likes := 5 },
   { title := "Second", author := "B", url := "b.example/1", likes := 7 },
   { title := "Third", author := "A", url := "a.example/2", likes := 3 },
   { title := "Fourth", author := "C", url := "c.example/1", likes := 7 }]

/-- Three records by three authors, one of them named by a numeral; the
authors tie on the number of records and two of them tie on likes. -/
def tiedBlogs : List Blog :=
  [{ title := "First", author := "B", url := "b.example/1", likes := 4 },
   { title := "Second", author := "A", url := "a.example/1", likes := 4 },
   { title := "Third", author := "7", url := "seven.example/1", likes := 4 }]

/-- Two records whose authors are named by the numerals `1` and `0`, in
that order, with the same likes. -/
def numeralAuthors : List Blog :=
  [{ title := "First", author := "1", url := "one.example", likes := 1 },
   { title := "Second", author := "0", url := "zero.example", likes := 1 }]

/-- Three records whose likes are `2^53`, `1` and `1`. -/
def largeLikes : List Blog :=
  [{ title := "First", author := "A", url := "a.example/1", likes := 9007199254740992 },
   { title := "Second", author := "A", url := "a.example/2", likes := 1 },
   { title := "Third", author := "A", url := "a.example/3", likes := 1 }]

/-- The records of `largeLikes` in another order: likes `1`, `1` and `2^53`. -/
def largeLikesReordered : List Blog :=
  [{ title := "Second", author := "A", url := "a.example/2", likes := 1 },
   { title := "Third", author := "A", url := "a.example/3", likes := 1 },
   { title := "First", author := "A", url := "a.example/1", likes := 9007199254740992 }]

/-- The records of `largeLikes` followed by one record of another author
with `2^53 + 2` likes. -/
def largeLikesTwoAuthors : List Blog :=
  largeLikes
    ++ [{ title := "Fourth", author := "B", url := "b.example/1", likes := 9007199254740994 }]

/-- One record whose author is named like a member of `Object.prototype`. -/
def prototypeAuthor : List Blog :=
  [{ title := "First", author := "constructor", url := "c.example", likes := 5 }]

end ListHelper

/-! # Blog creation and user registration

The blog mutation service and the user registration service are exercised by
`tests/bloglist_api.test.js`, but their implementation (the controllers and
models the test file requires) is not among the source files.  The two
operations the test file pins down are modelled here from the specification.
The opaque capabilities (token verification, password hashing, identifier
assignment by the store) are parameters.
-/

namespace BlogService

/-- Modelled from the spec: the error kinds of the error handling design; the
controllers that raise them are missing from the source files. -/
inductive ErrorKind where
  | ValidationError
  | MissingToken
  | InvalidToken
  | NotFound
  | InvalidCredentials
  | Forbidden
deriving DecidableEq, Repr

/-- Modelled from the spec: the structured failure recovered at the boundary,
a machine-distinguishable kind and a human-readable message; the error
middleware is missing from the source files. -/
structure Failure where
  kind : ErrorKind
  message : String
deriving DecidableEq, Repr

/-- Modelled from the spec: the identity a verified token is bound to (user
id and username); the token service is missing from the source files. -/
structure Identity where
  id : Nat
  username : String
deriving DecidableEq, Repr

/-- Modelled from the spec: the stored blog record of the data model
(`models/blog` is missing from the source files). -/
structure StoredBlog where
  id : Nat
  title : String
  author : String
  url : String
  likes : Nat
  creator : Option Nat
deriving DecidableEq, Repr

/-- Modelled from the spec: the payload of a create request; a field absent
from the request is `none`. -/
structure BlogPayload where
  title : Option String
  author : Option String
  url : Option String
  likes : Option Nat
deriving DecidableEq, Repr

/-- Modelled from the spec: the stored user account of the data model
(`models/user` is missing from the source files). -/
structure User where
  id : Nat
  username : String
  name : String
  passwordHash : String
deriving DecidableEq, Repr

/-- Modelled from the spec: the account as returned to a caller, with the
password hash omitted. -/
structure PublicUser where
  id : Nat
  username : String
  name : String
deriving DecidableEq, Repr

/-- Modelled from the spec: "the message contains `sub`". -/
def containsText (message sub : String) : Prop :=
  ∃ before after : String, message = before ++ sub ++ after

/-- Modelled from the spec: `create(payload, token)` of the blog mutation
service (the blogs controller is missing from the source files).  Requires a
valid token: fails `MissingToken` with the message "token missing" if none is
presented, `InvalidToken` if the presented one does not verify.  Validates
that `title` and `url` are present and non-empty, fails `ValidationError`
otherwise.  Defaults `likes` to `0` when absent, associates the record with
the identity of the token as creator, persists it and returns it with the
identifier the store assigned.  A failure leaves the collection as it was.
The spec words only the message of `MissingToken`; the other two messages
are placeholders. -/
def create (verify : String → Option Identity) (newId : List StoredBlog → Nat)
    (blogs : List StoredBlog) (payload : BlogPayload) (token : Option String) :
    Except Failure StoredBlog × List StoredBlog :=
  match token with
  | none => (.error { kind := .MissingToken, message := "token missing" }, blogs)
  | some t =>
    match verify t with
    | none => (.error { kind := .InvalidToken, message := "token invalid" }, blogs)
    | some identity =>
      match payload.title, payload.url with
      | some title, some url =>
        if title ≠ "" ∧ url ≠ "" then
          let record : StoredBlog :=
            { id := newId blogs, title := title, author := payload.author.getD "", url := url,
              likes := payload.likes.getD 0, creator := some identity.id }
          (.ok record, blogs ++ [record])
        else
          (.error { kind := .ValidationError, message := "title and url are required" }, blogs)
      | _, _ =>
        (.error { kind := .ValidationError, message := "title and url are required" }, blogs)

/-- Modelled from the spec: `register(username, name, password)` of the user
registration service (the users controller is missing from the source files).
Fails `ValidationError` ("both username and password must be at least 3
characters long") if either `username` or `password` has length below 3;
fails `ValidationError` ("expected `username` to be unique") if an account
with that `username` exists; otherwise hashes the password, persists the
account and returns it with the hash omitted.  A failure leaves the
collection as it was. -/
def register (hash : String → String) (newId : List User → Nat) (users : List User)
    (username name password : String) : Except Failure PublicUser × List User :=
  if username.length < 3 ∨ password.length < 3 then
    (.error { kind := .ValidationError,
              message := "both username and password must be at least 3 characters long" },
      users)
  else if users.any (fun u => u.username = username) then
    (.error { kind := .ValidationError, message := "expected `username` to be unique" }, users)
  else
    let account : User :=
      { id := newId users, username := username, name := name, passwordHash := hash password }
    (.ok { id := account.id, username := account.username, name := account.name },
      users ++ [account])

/-- A token verifier accepting exactly the token `"valid"`, bound to the user
`root` with id `1`. -/
def sampleVerify (t : String) : Option Identity :=
  if t = "valid" then some { id := 1, username := "root" } else none

/-- Identifier assignment of a store that numbers its records. -/
def nextId {α : Type} (records : List α) : Nat := records.length + 1

/-- A payload with title, author and url and no `likes`. -/
def samplePayload : BlogPayload :=
  { title := some "Valid blog test", author := some "Author test", url := some "test.com",
    likes := none }

/-- A stand-in for the opaque password hashing capability. -/
def sampleHash (password : String) : String := "#" ++ password

end BlogService

namespace ListHelper

/-! ## Sums and maxima -/

theorem spacing_small (fuel a : Nat) (h : a < 2 ^ 53) : spacing fuel a = 1 := by
  cases fuel with
  | zero => rfl
  | succ n => simp only [spacing, if_pos h]

theorem roundNat_exact (a : Nat) (h : a ≤ 2 ^ 53) : roundNat a = a := by
  rcases Nat.lt_or_ge a (2 ^ 53) with h1 | h1
  · simp [roundNat, spacing_small _ a h1, Nat.mod_one]
  · have : a = 2 ^ 53 := le_antisymm h h1
    subst this
    decide

theorem roundDouble_exact (x : Int) (h : x.natAbs ≤ 2 ^ 53) : roundDouble x = .int x := by
  have h1 : roundNat x.natAbs = x.natAbs := roundNat_exact _ h
  have h2 : ¬ (overflowBound ≤ x.natAbs) := by
    have : (2 : Nat) ^ 53 < overflowBound := by decide
    omega
  unfold roundDouble
  rw [h1, if_neg h2]
  congr 1
  split <;> omega

theorem foldl_add_exact (blogs : List Blog) (acc : Int)
    (h : acc.natAbs + (blogs.map (fun b => b.likes.natAbs)).sum ≤ 2 ^ 53) :
    blogs.foldl (fun (previousValue : JSNum) (currentValue : Blog) =>
        previousValue.add currentValue.likes) (JSNum.int acc)
      = JSNum.int (acc + (blogs.map (fun b => b.likes)).sum) := by
  induction blogs generalizing acc with
  | nil => simp
  | cons b bs ih =>
    simp only [List.map_cons, List.sum_cons] at h
    have hstep : (JSNum.int acc).add b.likes = .int (acc + b.likes) := by
      apply roundDouble_exact
      have := Int.natAbs_add_le acc b.likes
      omega
    simp only [List.foldl_cons, hstep, List.map_cons, List.sum_cons]
    rw [ih (acc + b.likes) (by have := Int.natAbs_add_le acc b.likes; omega)]
    rw [add_assoc]

theorem totalLikes_exact (blogs : List Blog)
    (h : (blogs.map (fun b => b.likes.natAbs)).sum ≤ 2 ^ 53) :
    totalLikes blogs = .int (blogs.map (fun b => b.likes)).sum := by
  have := foldl_add_exact blogs 0 (by simpa using h)
  simpa [totalLikes] using this

theorem natAbs_sum_of_nonneg (blogs : List Blog) (hpos : ∀ b ∈ blogs, 0 ≤ b.likes) :
    (((blogs.map (fun b => b.likes.natAbs)).sum : Nat) : Int)
      = (blogs.map (fun b => b.likes)).sum := by
  induction blogs with
  | nil => simp
  | cons b bs ih =>
    have hb : 0 ≤ b.likes := hpos b (by simp)
    have := ih (fun b' hb' => hpos b' (by simp [hb']))
    simp only [List.map_cons, List.sum_cons, Nat.cast_add]
    rw [this]
    omega

theorem mathMax_map_int (l : List Int) (hne : l ≠ []) :
    ∃ m, mathMax (l.map JSNum.int) = JSNum.int m ∧ m ∈ l ∧ ∀ x ∈ l, x ≤ m := by
  induction l with
  | nil => exact absurd rfl hne
  | cons x xs ih =>
    by_cases hxs : xs = []
    · subst hxs
      exact ⟨x, rfl, by simp, by simp⟩
    · obtain ⟨m, hm, hmem, hle⟩ := ih hxs
      refine ⟨Max.max x m, ?_, ?_, ?_⟩
      · simp [mathMax, hm, JSNum.max]
      · rcases max_choice x m with h | h
        · rw [h]; simp
        · rw [h]; simp [hmem]
      · intro y hy
        rcases List.mem_cons.1 hy with rfl | hy
        · exact le_max_left _ _
        · exact le_trans (hle y hy) (le_max_right _ _)


/-! ## Own properties and the tally invariant -/

theorem getOwn_eq_none_iff (o : JSObject) (k : String) :
    getOwn o k = none ↔ k ∉ o.map Prod.fst := by
  induction o with
  | nil => simp [getOwn]
  | cons p rest ih =>
    obtain ⟨k', v⟩ := p
    by_cases h : k' = k
    · simp [getOwn, h]
    · have h' : ¬ k = k' := fun e => h e.symm
      simp [getOwn, h, h', ih]

theorem keys_setOwn (o : JSObject) (k : String) (v : JSVal) :
    (setOwn o k v).map Prod.fst
      = if k ∈ o.map Prod.fst then o.map Prod.fst else o.map Prod.fst ++ [k] := by
  induction o with
  | nil => simp [setOwn]
  | cons p rest ih =>
    obtain ⟨k', v'⟩ := p
    by_cases h : k' = k
    · simp [setOwn, h]
    · have h' : ¬ k = k' := fun e => h e.symm
      by_cases hm : k ∈ rest.map Prod.fst
      · simp only [setOwn, h, if_false, List.map_cons, ih, hm, if_true, List.mem_cons, or_true]
      · simp only [setOwn, h, if_false, List.map_cons, ih, hm, List.mem_cons, h', or_self,
          List.cons_append]

theorem getOwn_setOwn_self (o : JSObject) (k : String) (v : JSVal) :
    getOwn (setOwn o k v) k = some v := by
  induction o with
  | nil => simp [setOwn, getOwn]
  | cons p rest ih =>
    obtain ⟨k', v'⟩ := p
    by_cases h : k' = k
    · simp [setOwn, getOwn, h]
    · simp [setOwn, getOwn, h, ih]

theorem getOwn_setOwn_ne (o : JSObject) (k k' : String) (v : JSVal) (hne : k' ≠ k) :
    getOwn (setOwn o k v) k' = getOwn o k' := by
  induction o with
  | nil => simp [setOwn, getOwn, hne.symm]
  | cons p rest ih =>
    obtain ⟨k'', v'⟩ := p
    by_cases h : k'' = k
    · subst h
      simp [setOwn, getOwn, hne.symm]
    · by_cases h2 : k'' = k'
      · subst h2
        simp [setOwn, getOwn, h]
      · simp [setOwn, getOwn, h, h2, ih]

theorem weight_append_self (k : String) (w : Int) (l : List (String × Int)) :
    weight k (l ++ [(k, w)]) = weight k l + w := by
  simp [weight, List.filter_append]

theorem weight_append_ne (k k' : String) (w : Int) (l : List (String × Int)) (hne : k' ≠ k) :
    weight k' (l ++ [(k, w)]) = weight k' l := by
  simp [weight, List.filter_append, hne.symm]

theorem weight_of_not_mem (k : String) (l : List (String × Int)) (h : k ∉ l.map Prod.fst) :
    weight k l = 0 := by
  have : l.filter (fun p => p.1 = k) = [] := by
    rw [List.filter_eq_nil_iff]
    intro p hp hpk
    exact h (List.mem_map.2 ⟨p, hp, by simpa using hpk⟩)
  simp [weight, this]

theorem tally_nil : Tally [] [] :=
  { nodup := by simp
    mem := by simp
    val := by simp
    order := by simp }

theorem tally_step (l : List (String × Int)) (o : JSObject) (k : String) (w : Int)
    (h : Tally l o) :
    Tally (l ++ [(k, w)]) (setOwn o k (.num (.int (weight k l + w)))) := by
  have hidx : ∀ a ∈ l.map Prod.fst,
      ((l ++ [(k, w)]).map Prod.fst).indexOf a = (l.map Prod.fst).indexOf a := by
    intro a ha
    rw [List.map_append, List.indexOf_append_of_mem ha]
  constructor
  · rw [keys_setOwn]
    by_cases hk : k ∈ o.map Prod.fst
    · simpa [hk] using h.nodup
    · simp only [hk, if_false]
      exact List.Nodup.append h.nodup (by simp) (by simpa using hk)
  · intro k'
    rw [keys_setOwn]
    by_cases hk : k ∈ o.map Prod.fst
    · simp only [hk, if_true, List.map_append, List.mem_append, h.mem k']
      constructor
      · intro h1; exact Or.inl h1
      · rintro (h1 | h1)
        · exact h1
        · have : k' = k := by simpa using h1
          rw [this]; exact (h.mem k).1 hk
    · simp only [hk, if_false, List.map_append, List.mem_append, h.mem k']
      simp
  · intro k' hk'
    by_cases hkk : k' = k
    · subst hkk
      rw [getOwn_setOwn_self, weight_append_self]
    · rw [getOwn_setOwn_ne _ _ _ _ hkk, weight_append_ne _ _ _ _ hkk]
      apply h.val
      simpa [hkk] using hk'
  · rw [keys_setOwn]
    have hold : (o.map Prod.fst).Pairwise (fun a b =>
        ((l ++ [(k, w)]).map Prod.fst).indexOf a < ((l ++ [(k, w)]).map Prod.fst).indexOf b) := by
      refine List.Pairwise.imp_of_mem ?_ h.order
      intro a b ha hb hab
      rw [hidx a ((h.mem a).1 ha), hidx b ((h.mem b).1 hb)]
      exact hab
    by_cases hk : k ∈ o.map Prod.fst
    · simpa [hk] using hold
    · simp only [hk, if_false]
      rw [List.pairwise_append]
      refine ⟨hold, by simp, ?_⟩
      intro a ha b hb
      have hbk : b = k := by simpa using hb
      subst hbk
      have hal : a ∈ l.map Prod.fst := (h.mem a).1 ha
      have hbl : b ∉ l.map Prod.fst := fun hc => hk ((h.mem b).2 hc)
      rw [hidx a hal, List.map_append, List.indexOf_append_of_not_mem hbl]
      have := List.indexOf_lt_length.2 hal
      omega


/-! ## The reducers preserve the tally -/

theorem proto_mem : "__proto__" ∈ objectPrototypeKeys := by decide

theorem getProp_tally (l : List (String × Int)) (o : JSObject) (k : String)
    (h : Tally l o) (hk : k ∉ objectPrototypeKeys) :
    getProp o k = (if k ∈ l.map Prod.fst then .num (.int (weight k l)) else .undefined) := by
  by_cases hm : k ∈ l.map Prod.fst
  · simp only [getProp, h.val k hm, hm, if_true]
  · have hnone : getOwn o k = none :=
      (getOwn_eq_none_iff o k).2 (fun hc => hm ((h.mem k).1 hc))
    simp only [getProp, hnone, hk, hm, if_false]

theorem countStep_eq (l : List (String × Int)) (o : JSObject) (k : String)
    (h : Tally l o) (hk : k ∉ objectPrototypeKeys) :
    countStep o k = setOwn o k (.num (.int (weight k l + 1))) := by
  have hp : k ≠ "__proto__" := fun e => hk (e ▸ proto_mem)
  unfold countStep
  rw [getProp_tally l o k h hk]
  by_cases hm : k ∈ l.map Prod.fst
  · by_cases hw : weight k l = 0
    · simp [hm, truthy, hw, setProp, hp]
    · simp [hm, truthy, hw, setProp, hp, increment, toNumber, JSNum.succ]
  · simp [hm, truthy, setProp, hp, weight_of_not_mem k l hm]

theorem weight_nonneg (k : String) (l : List (String × Int)) (hpos : ∀ p ∈ l, 0 ≤ p.2) :
    0 ≤ weight k l := by
  unfold weight
  apply List.sum_nonneg
  intro x hx
  obtain ⟨p, hp, rfl⟩ := List.mem_map.1 hx
  exact hpos p (List.mem_filter.1 hp).1

theorem weight_le_sum (k : String) (l : List (String × Int)) (hpos : ∀ p ∈ l, 0 ≤ p.2) :
    weight k l ≤ (l.map Prod.snd).sum := by
  induction l with
  | nil => simp [weight]
  | cons p ps ih =>
    have hp : 0 ≤ p.2 := hpos p (by simp)
    have := ih (fun q hq => hpos q (by simp [hq]))
    unfold weight at this ⊢
    by_cases h : p.1 = k
    · simp [List.filter_cons, h] at this ⊢
      exact this
    · simp [List.filter_cons, h] at this ⊢
      omega

theorem likesStep_eq (l : List (String × Int)) (o : JSObject) (b : Blog)
    (h : Tally l o) (hk : b.author ∉ objectPrototypeKeys)
    (h0 : 0 ≤ weight b.author l) (hb : 0 ≤ b.likes)
    (hle : weight b.author l + b.likes ≤ 2 ^ 53) :
    likesStep o b = setOwn o b.author (.num (.int (weight b.author l + b.likes))) := by
  have hp : b.author ≠ "__proto__" := fun e => hk (e ▸ proto_mem)
  have hr : roundDouble (weight b.author l + b.likes)
      = .int (weight b.author l + b.likes) :=
    roundDouble_exact _ (by omega)
  unfold likesStep
  rw [getProp_tally l o b.author h hk]
  by_cases hm : b.author ∈ l.map Prod.fst
  · by_cases hw : weight b.author l = 0
    · simp [hm, truthy, hw, setProp, hp]
    · simp [hm, truthy, hw, setProp, hp, plus, JSNum.add, hr]
  · simp [hm, truthy, setProp, hp, weight_of_not_mem b.author l hm]

theorem tally_foldl_countStep (blogs : List Blog)
    (hproto : ∀ b ∈ blogs, b.author ∉ objectPrototypeKeys) :
    ∀ (l : List (String × Int)) (o : JSObject), Tally l o →
      Tally (l ++ blogs.map (fun b => (b.author, (1 : Int))))
        ((blogs.map (fun blog => blog.author)).foldl countStep o) := by
  induction blogs with
  | nil => intro l o h; simpa using h
  | cons b bs ih =>
    intro l o h
    have hb : b.author ∉ objectPrototypeKeys := hproto b (by simp)
    have hstep := tally_step l o b.author 1 h
    rw [← countStep_eq l o b.author h hb] at hstep
    have := ih (fun b' hb' => hproto b' (by simp [hb'])) _ _ hstep
    simpa [List.append_assoc] using this

theorem tally_foldl_likesStep (blogs : List Blog)
    (hproto : ∀ b ∈ blogs, b.author ∉ objectPrototypeKeys)
    (hpos : ∀ b ∈ blogs, 0 ≤ b.likes) :
    ∀ (l : List (String × Int)) (o : JSObject), Tally l o → (∀ p ∈ l, 0 ≤ p.2) →
      (l.map Prod.snd).sum + (blogs.map (fun b => b.likes)).sum ≤ 2 ^ 53 →
      Tally (l ++ blogs.map (fun b => (b.author, b.likes)))
        ((blogs.map (fun blog => blog)).foldl likesStep o) := by
  induction blogs with
  | nil => intro l o h _ _; simpa using h
  | cons b bs ih =>
    intro l o h hl hsum
    have hb : b.author ∉ objectPrototypeKeys := hproto b (by simp)
    have hbl : 0 ≤ b.likes := hpos b (by simp)
    have hbs : ∀ b' ∈ bs, 0 ≤ b'.likes := fun b' hb' => hpos b' (by simp [hb'])
    have hrest : 0 ≤ (bs.map (fun b => b.likes)).sum := by
      apply List.sum_nonneg
      intro x hx
      obtain ⟨b', hb', rfl⟩ := List.mem_map.1 hx
      exact hbs b' hb'
    simp only [List.map_cons, List.sum_cons] at hsum
    have hw0 := weight_nonneg b.author l hl
    have hw1 := weight_le_sum b.author l hl
    have hstep := tally_step l o b.author b.likes h
    rw [← likesStep_eq l o b h hb hw0 hbl (by omega)] at hstep
    have hl' : ∀ p ∈ l ++ [(b.author, b.likes)], 0 ≤ p.2 := by
      intro p hp
      rcases List.mem_append.1 hp with hp | hp
      · exact hl p hp
      · rw [List.mem_singleton.1 hp]; exact hbl
    have hsum' : ((l ++ [(b.author, b.likes)]).map Prod.snd).sum
        + (bs.map (fun b => b.likes)).sum ≤ 2 ^ 53 := by
      simp only [List.map_append, List.sum_append, List.map_cons, List.map_nil, List.sum_cons,
        List.sum_nil]
      omega
    have := ih (fun b' hb' => hproto b' (by simp [hb'])) hbs _ _ hstep hl' hsum'
    simpa [List.append_assoc] using this

theorem arrayIndex_injective (a b : String) (i : Nat)
    (ha : arrayIndex a = some i) (hb : arrayIndex b = some i) : a = b := by
  unfold arrayIndex at ha hb
  split at ha
  · rename_i h1
    split at hb
    · rename_i h2
      have e1 : digitsValue a.data = i := by simpa using ha
      have e2 : digitsValue b.data = i := by simpa using hb
      rw [← h1.2.2, ← h2.2.2, e1, e2]
    · exact absurd hb (by simp)
  · exact absurd ha (by simp)

theorem indexEntries_snd (o : JSObject) :
    (indexEntries o).map Prod.snd = o.filter (fun p => (arrayIndex p.1).isSome) := by
  induction o with
  | nil => rfl
  | cons p rest ih =>
    unfold indexEntries at ih ⊢
    cases hp : arrayIndex p.1 with
    | none => simp [List.filterMap_cons, hp, ih]
    | some i => simp [List.filterMap_cons, hp, ih]

theorem indexEntries_spec (o : JSObject) :
    ∀ e ∈ indexEntries o, arrayIndex e.2.1 = some e.1 := by
  intro e he
  unfold indexEntries at he
  rw [List.mem_filterMap] at he
  obtain ⟨p, _, hp⟩ := he
  cases hi : arrayIndex p.1 with
  | none => simp [hi] at hp
  | some i =>
    simp [hi] at hp
    subst hp
    exact hi

theorem ownEntries_perm (o : JSObject) : (ownEntries o).Perm o := by
  unfold ownEntries
  have h1 : (((indexEntries o).insertionSort (fun a b => a.1 ≤ b.1)).map Prod.snd).Perm
      (o.filter (fun p => (arrayIndex p.1).isSome)) := by
    rw [← indexEntries_snd]
    exact (List.perm_insertionSort _ _).map _
  have h2 : (o.filter (fun p => (arrayIndex p.1).isSome)
      ++ o.filter (fun p => (arrayIndex p.1).isNone)).Perm o := by
    have := List.filter_append_perm (fun p : String × JSVal => (arrayIndex p.1).isSome) o
    have e : (fun p : String × JSVal => (arrayIndex p.1).isNone)
        = (fun p => !(arrayIndex p.1).isSome) := by
      funext p; cases arrayIndex p.1 <;> rfl
    rw [e]; exact this
  exact (h1.append_right _).trans h2


/-! ## Enumeration order of the keys -/

theorem keyBefore_index (c : List String) (a b : String) (i j : Nat)
    (ha : arrayIndex a = some i) (hb : arrayIndex b = some j) :
    keyBefore c a b ↔ i < j := by
  simp [keyBefore, ha, hb]

theorem keyBefore_index_named (c : List String) (a b : String) (i : Nat)
    (ha : arrayIndex a = some i) (hb : arrayIndex b = none) : keyBefore c a b := by
  simp [keyBefore, ha, hb]

theorem keyBefore_named (c : List String) (a b : String)
    (ha : arrayIndex a = none) (hb : arrayIndex b = none) :
    keyBefore c a b ↔ c.indexOf a < c.indexOf b := by
  simp [keyBefore, ha, hb]

theorem ownEntries_pairwise (l : List (String × Int)) (o : JSObject) (h : Tally l o) :
    ((ownEntries o).map Prod.fst).Pairwise (keyBefore (l.map Prod.fst)) := by
  unfold ownEntries
  rw [List.map_append, List.pairwise_append]
  have hsorted := List.sorted_insertionSort (fun a b : Nat × String × JSVal => a.1 ≤ b.1)
    (indexEntries o)
  have hperm := List.perm_insertionSort (fun a b : Nat × String × JSVal => a.1 ≤ b.1)
    (indexEntries o)
  have hspec : ∀ e ∈ (indexEntries o).insertionSort (fun a b => a.1 ≤ b.1),
      arrayIndex e.2.1 = some e.1 :=
    fun e he => indexEntries_spec o e (hperm.subset he)
  have hnd : ((((indexEntries o).insertionSort (fun a b => a.1 ≤ b.1)).map Prod.snd).map
      Prod.fst).Nodup := by
    have hp : ((((indexEntries o).insertionSort (fun a b => a.1 ≤ b.1)).map Prod.snd).map
        Prod.fst).Perm ((o.filter (fun p => (arrayIndex p.1).isSome)).map Prod.fst) := by
      rw [← indexEntries_snd]
      exact (hperm.map _).map _
    rw [hp.nodup_iff]
    exact h.nodup.sublist ((List.filter_sublist o).map _)
  refine ⟨?_, ?_, ?_⟩
  · rw [List.map_map, List.pairwise_map]
    rw [List.map_map, List.Nodup, List.pairwise_map] at hnd
    have hboth := List.Pairwise.and hsorted hnd
    refine List.Pairwise.imp_of_mem ?_ hboth
    intro e1 e2 he1 he2 h12
    simp only [Function.comp] at h12 ⊢
    rw [keyBefore_index _ _ _ _ _ (hspec e1 he1) (hspec e2 he2)]
    rcases Nat.lt_or_ge e1.1 e2.1 with hlt | hge
    · exact hlt
    · exfalso
      have heq : e1.1 = e2.1 := le_antisymm h12.1 hge
      apply h12.2
      apply arrayIndex_injective _ _ e1.1 (hspec e1 he1)
      rw [heq]; exact hspec e2 he2
  · have hsub : ((o.filter (fun p => (arrayIndex p.1).isNone)).map Prod.fst).Sublist
        (o.map Prod.fst) := (List.filter_sublist o).map _
    refine List.Pairwise.imp_of_mem ?_ (h.order.sublist hsub)
    intro a b ha hb hab
    have hna : arrayIndex a = none := by
      obtain ⟨p, hp, rfl⟩ := List.mem_map.1 ha
      simpa using (List.mem_filter.1 hp).2
    have hnb : arrayIndex b = none := by
      obtain ⟨p, hp, rfl⟩ := List.mem_map.1 hb
      simpa using (List.mem_filter.1 hp).2
    exact (keyBefore_named _ _ _ hna hnb).2 hab
  · intro a ha b hb
    obtain ⟨p, hp, rfl⟩ := List.mem_map.1 ha
    obtain ⟨e, he, rfl⟩ := List.mem_map.1 hp
    obtain ⟨q, hq, rfl⟩ := List.mem_map.1 hb
    have hnb : arrayIndex q.1 = none := by simpa using (List.mem_filter.1 hq).2
    exact keyBefore_index_named _ _ _ _ (hspec e he) hnb

theorem indexOfFrom_split (pre post : List JSVal) (v : JSVal) (x : JSNum) (i : Int)
    (hpre : ∀ u ∈ pre, strictEq u x = false) (hv : strictEq v x = true) :
    indexOfFrom (pre ++ v :: post) x i = i + pre.length := by
  induction pre generalizing i with
  | nil => simp [indexOfFrom, hv]
  | cons u us ih =>
    have hu : strictEq u x = false := hpre u (by simp)
    have hih := ih (i + 1) (fun u' hu' => hpre u' (by simp [hu']))
    simp only [List.cons_append, indexOfFrom, hu, Bool.false_eq_true, if_false]
    change indexOfFrom (us ++ v :: post) x (i + 1) = _
    rw [hih]
    simp only [List.length_cons, Nat.cast_add, Nat.cast_one]
    ring

theorem keyAt_split (pre post : List String) (a : String) :
    keyAt (pre ++ a :: post) (pre.length : Int) = some a := by
  simp [keyAt, List.getElem_append_right]


/-! ## Selecting the maximum -/

theorem weight_ones (a : String) (blogs : List Blog) :
    weight a (blogs.map (fun b => (b.author, (1 : Int)))) = (authorBlogs a blogs : Int) := by
  induction blogs with
  | nil => simp [weight, authorBlogs]
  | cons b bs ih =>
    unfold weight authorBlogs at ih ⊢
    by_cases h : b.author = a
    · simp [List.filter_cons, h] at ih ⊢
      rw [ih]; ring
    · simp [List.filter_cons, h] at ih ⊢
      exact ih

theorem weight_likes (a : String) (blogs : List Blog) :
    weight a (blogs.map (fun b => (b.author, b.likes))) = authorLikes a blogs := by
  induction blogs with
  | nil => simp [weight, authorLikes]
  | cons b bs ih =>
    unfold weight authorLikes at ih ⊢
    by_cases h : b.author = a
    · simp [List.filter_cons, h] at ih ⊢
      rw [ih]
    · simp [List.filter_cons, h] at ih ⊢
      exact ih

theorem getOwn_of_mem (o : JSObject) (e : String × JSVal)
    (hnd : (o.map Prod.fst).Nodup) (he : e ∈ o) : getOwn o e.1 = some e.2 := by
  induction o with
  | nil => simp at he
  | cons p rest ih =>
    obtain ⟨k, v⟩ := p
    rw [List.map_cons, List.nodup_cons] at hnd
    rcases List.mem_cons.1 he with rfl | he'
    · simp [getOwn]
    · have hne : k ≠ e.1 := by
        intro hc
        apply hnd.1
        rw [hc]
        exact List.mem_map.2 ⟨e, he', rfl⟩
      simp [getOwn, hne, ih hnd.2 he']

theorem pick_first (es : List (String × JSVal)) (f : String → Int)
    (hval : ∀ e ∈ es, e.2 = .num (.int (f e.1))) (hne : es ≠ []) :
    ∃ a pre post, es.map Prod.fst = pre ++ a :: post
      ∧ (∀ k ∈ pre, f k < f a) ∧ (∀ k ∈ post, f k ≤ f a)
      ∧ mathMax ((es.map Prod.snd).map toNumber) = .int (f a)
      ∧ indexOf (es.map Prod.snd) (.int (f a)) = (pre.length : Int) := by
  have hnums : (es.map Prod.snd).map toNumber = (es.map (fun e => f e.1)).map JSNum.int := by
    rw [List.map_map, List.map_map]
    apply List.map_congr_left
    intro e he
    simp [Function.comp, hval e he, toNumber]
  have hne' : es.map (fun e => f e.1) ≠ [] := by simpa using hne
  obtain ⟨m, hm, hmem, hle⟩ := mathMax_map_int _ hne'
  obtain ⟨e0, he0, he0m⟩ := List.mem_map.1 hmem
  have hsome : (es.find? (fun e => decide (f e.1 = m))).isSome := by
    rw [List.find?_isSome]
    exact ⟨e0, he0, by simpa using he0m⟩
  obtain ⟨e1, he1⟩ := Option.isSome_iff_exists.1 hsome
  obtain ⟨hp1, as, bs, hsplit, hbefore⟩ := List.find?_eq_some.1 he1
  have hfm : f e1.1 = m := by simpa using hp1
  subst hsplit
  refine ⟨e1.1, as.map Prod.fst, bs.map Prod.fst, by simp, ?_, ?_, ?_, ?_⟩
  · intro k hk
    obtain ⟨e, he, rfl⟩ := List.mem_map.1 hk
    have h1 : f e.1 ≤ m := hle _ (List.mem_map.2 ⟨e, by simp [he], rfl⟩)
    have h2 : f e.1 ≠ m := by simpa using hbefore e he
    rw [hfm]; omega
  · intro k hk
    obtain ⟨e, he, rfl⟩ := List.mem_map.1 hk
    rw [hfm]
    exact hle _ (List.mem_map.2 ⟨e, by simp [he], rfl⟩)
  · rw [hnums, hm, hfm]
  · have hsp : (as ++ e1 :: bs).map Prod.snd = as.map Prod.snd ++ e1.2 :: bs.map Prod.snd := by
      simp
    rw [indexOf, hsp, indexOfFrom_split]
    · simp
    · intro u hu
      obtain ⟨e, he, rfl⟩ := List.mem_map.1 hu
      have h2 : f e.1 ≠ m := by simpa using hbefore e he
      rw [hval e (by simp [he]), hfm]
      simp [strictEq, h2]
    · rw [hval e1 (by simp)]
      simp [strictEq]

theorem pick_tally (l : List (String × Int)) (o : JSObject) (h : Tally l o) (hne : l ≠ []) :
    ∃ a, a ∈ l.map Prod.fst
      ∧ mathMax ((objectValues o).map toNumber) = .int (weight a l)
      ∧ keyAt (objectKeys o)
          (indexOf (objectValues o) (mathMax ((objectValues o).map toNumber))) = some a
      ∧ (∀ k ∈ l.map Prod.fst, weight k l ≤ weight a l)
      ∧ (∀ k ∈ l.map Prod.fst, k ≠ a → weight k l = weight a l →
          keyBefore (l.map Prod.fst) a k) := by
  have hperm := ownEntries_perm o
  have hkeys : ∀ k, k ∈ (ownEntries o).map Prod.fst ↔ k ∈ l.map Prod.fst := by
    intro k
    rw [← h.mem k]
    exact (hperm.map Prod.fst).mem_iff
  have hval : ∀ e ∈ ownEntries o, e.2 = .num (.int (weight e.1 l)) := by
    intro e he
    have heo : e ∈ o := hperm.subset he
    have h1 := getOwn_of_mem o e h.nodup heo
    have h2 := h.val e.1 ((h.mem e.1).1 (List.mem_map.2 ⟨e, heo, rfl⟩))
    rw [h1] at h2
    exact Option.some.inj h2
  have hne' : ownEntries o ≠ [] := by
    obtain ⟨p, hp⟩ := List.exists_mem_of_ne_nil l hne
    have : p.1 ∈ (ownEntries o).map Prod.fst := (hkeys p.1).2 (List.mem_map.2 ⟨p, hp, rfl⟩)
    intro hc
    rw [hc] at this
    simp at this
  obtain ⟨a, pre, post, hsplit, hpre, hpost, hmax, hidx⟩ :=
    pick_first (ownEntries o) (fun k => weight k l) hval hne'
  have hpw := ownEntries_pairwise l o h
  rw [hsplit, List.pairwise_append, List.pairwise_cons] at hpw
  refine ⟨a, ?_, ?_, ?_, ?_, ?_⟩
  · rw [← hkeys a, hsplit]; simp
  · exact hmax
  · unfold objectValues objectKeys
    rw [hmax, hidx, hsplit]
    exact keyAt_split pre post a
  · intro k hk
    rw [← hkeys k, hsplit] at hk
    rcases List.mem_append.1 hk with hk | hk
    · exact le_of_lt (hpre k hk)
    · rcases List.mem_cons.1 hk with rfl | hk
      · exact le_refl _
      · exact hpost k hk
  · intro k hk hka hw
    rw [← hkeys k, hsplit] at hk
    rcases List.mem_append.1 hk with hk | hk
    · have := hpre k hk
      simp only at this
      omega
    · rcases List.mem_cons.1 hk with rfl | hk
      · exact absurd rfl hka
      · exact hpw.2.1.1 k hk


/-! ## `mostBlogs` and `mostLikes` away from inherited names -/

theorem mostBlogs_spec (blogs : List Blog) (g : Globals) (hne : blogs ≠ [])
    (hproto : ∀ b ∈ blogs, b.author ∉ objectPrototypeKeys) :
    ∃ a, a ∈ blogs.map (fun b => b.author)
      ∧ (mostBlogs blogs g).1 = Except.ok { author := some a, blogs := .int (authorBlogs a blogs) }
      ∧ (∀ b ∈ blogs, authorBlogs b.author blogs ≤ authorBlogs a blogs)
      ∧ (∀ b ∈ blogs, b.author ≠ a → authorBlogs b.author blogs = authorBlogs a blogs →
          keyBefore (blogs.map (fun b => b.author)) a b.author) := by
  have ht := tally_foldl_countStep blogs hproto [] [] tally_nil
  rw [List.nil_append] at ht
  have hl : (blogs.map (fun b => (b.author, (1 : Int)))).map Prod.fst
      = blogs.map (fun b => b.author) := by
    rw [List.map_map]; rfl
  have hne' : blogs.map (fun b => (b.author, (1 : Int))) ≠ [] := by simpa using hne
  obtain ⟨a, hmem, hmax, hkey, hle, htie⟩ := pick_tally _ _ ht hne'
  rw [hl] at hmem hle htie
  simp only [weight_ones] at hmax hle htie
  refine ⟨a, hmem, ?_, ?_, ?_⟩
  · rw [hmax] at hkey
    simp only [mostBlogs, hmax, hkey]
  · intro b hb
    exact_mod_cast hle b.author (List.mem_map.2 ⟨b, hb, rfl⟩)
  · intro b hb hba hw
    exact htie b.author (List.mem_map.2 ⟨b, hb, rfl⟩) hba (by exact_mod_cast hw)

theorem mostLikes_spec (blogs : List Blog) (g : Globals) (hne : blogs ≠ [])
    (hpos : ∀ b ∈ blogs, 0 ≤ b.likes)
    (hbound : (blogs.map (fun b => b.likes)).sum ≤ 2 ^ 53)
    (hproto : ∀ b ∈ blogs, b.author ∉ objectPrototypeKeys) :
    ∃ a, a ∈ blogs.map (fun b => b.author)
      ∧ (mostLikes blogs g).1 = Except.ok { author := some a, likes := .int (authorLikes a blogs) }
      ∧ (∀ b ∈ blogs, authorLikes b.author blogs ≤ authorLikes a blogs)
      ∧ (∀ b ∈ blogs, b.author ≠ a → authorLikes b.author blogs = authorLikes a blogs →
          keyBefore (blogs.map (fun b => b.author)) a b.author) := by
  have ht := tally_foldl_likesStep blogs hproto hpos [] [] tally_nil (by simp)
    (by simpa using hbound)
  rw [List.nil_append] at ht
  have hl : (blogs.map (fun b => (b.author, b.likes))).map Prod.fst
      = blogs.map (fun b => b.author) := by
    rw [List.map_map]; rfl
  have hne' : blogs.map (fun b => (b.author, b.likes)) ≠ [] := by simpa using hne
  obtain ⟨a, hmem, hmax, hkey, hle, htie⟩ := pick_tally _ _ ht hne'
  rw [hl] at hmem hle htie
  simp only [weight_likes] at hmax hle htie
  refine ⟨a, hmem, ?_, ?_, ?_⟩
  · rw [hmax] at hkey
    simp only [mostLikes, hmax, hkey]
  · intro b hb
    exact hle b.author (List.mem_map.2 ⟨b, hb, rfl⟩)
  · intro b hb hba hw
    exact htie b.author (List.mem_map.2 ⟨b, hb, rfl⟩) hba hw

theorem firstAppearance_of_keyBefore (blogs : List Blog) (a b : String)
    (ha : arrayIndex a = none) (hb : arrayIndex b = none)
    (h : keyBefore (blogs.map (fun b => b.author)) a b) :
    firstAppearance a blogs < firstAppearance b blogs :=
  (keyBefore_named _ _ _ ha hb).1 h


/-! ## Consequences used by the derived properties -/

theorem favoriteBlog_spec (blogs : List Blog) (g : Globals) (hne : blogs ≠ []) :
    ∃ f, f ∈ blogs
      ∧ favoriteBlog blogs g
          = (Except.ok { title := f.title, author := f.author, likes := f.likes },
             { g with favorite := some (some f) })
      ∧ (∀ b ∈ blogs, b.likes ≤ f.likes) := by
  have hne' : blogs.map (fun b => b.likes) ≠ [] := by simpa using hne
  obtain ⟨m, hm, hmem, hle⟩ := mathMax_map_int _ hne'
  have hm' : mathMax (blogs.map (fun blog => JSNum.int blog.likes)) = JSNum.int m := by
    rw [← hm, List.map_map]; rfl
  obtain ⟨b0, hb0, hb0m⟩ := List.mem_map.1 hmem
  have hsome : (blogs.find? (fun blog => geNum blog.likes (JSNum.int m))).isSome := by
    rw [List.find?_isSome]
    exact ⟨b0, hb0, by simp [geNum, hb0m]⟩
  obtain ⟨f, hf⟩ := Option.isSome_iff_exists.1 hsome
  have hfmem : f ∈ blogs := List.mem_of_find?_eq_some hf
  have hpf := List.find?_some hf
  have hfm : f.likes = m := by
    have h1 : m ≤ f.likes := by simpa [geNum] using hpf
    have h2 : f.likes ≤ m := hle _ (List.mem_map.2 ⟨f, hfmem, rfl⟩)
    omega
  refine ⟨f, hfmem, ?_, ?_⟩
  · simp only [favoriteBlog, hm', hf]
  · intro b hb
    rw [hfm]
    exact hle _ (List.mem_map.2 ⟨b, hb, rfl⟩)

theorem likes_le_authorLikes (blogs : List Blog) (hpos : ∀ b ∈ blogs, 0 ≤ b.likes)
    (f : Blog) (hf : f ∈ blogs) : f.likes ≤ authorLikes f.author blogs := by
  induction blogs with
  | nil => simp at hf
  | cons b bs ih =>
    have hb : 0 ≤ b.likes := hpos b (by simp)
    have hbs : ∀ b' ∈ bs, 0 ≤ b'.likes := fun b' hb' => hpos b' (by simp [hb'])
    have hnn : 0 ≤ authorLikes f.author bs := by
      unfold authorLikes
      apply List.sum_nonneg
      intro x hx
      obtain ⟨b', hb', rfl⟩ := List.mem_map.1 hx
      exact hbs b' (List.mem_filter.1 hb').1
    rcases List.mem_cons.1 hf with rfl | hf'
    · unfold authorLikes at hnn ⊢
      simp [List.filter_cons] at hnn ⊢
      exact hnn
    · have := ih hbs hf'
      unfold authorLikes at this ⊢
      by_cases h : b.author = f.author
      · simp [List.filter_cons, h] at this ⊢
        omega
      · simp [List.filter_cons, h] at this ⊢
        exact this

theorem authorLikes_le_sum (blogs : List Blog) (hpos : ∀ b ∈ blogs, 0 ≤ b.likes)
    (a : String) : authorLikes a blogs ≤ (blogs.map (fun b => b.likes)).sum := by
  induction blogs with
  | nil => simp [authorLikes]
  | cons b bs ih =>
    have hb : 0 ≤ b.likes := hpos b (by simp)
    have := ih (fun b' hb' => hpos b' (by simp [hb']))
    unfold authorLikes at this ⊢
    by_cases h : b.author = a
    · simp [List.filter_cons, h] at this ⊢
      exact this
    · simp [List.filter_cons, h] at this ⊢
      omega

theorem likes_chain_of_plain_authors (blogs : List Blog) (g : Globals) (hne : blogs ≠ [])
    (hpos : ∀ b ∈ blogs, 0 ≤ b.likes)
    (hbound : (blogs.map (fun b => b.likes)).sum ≤ 2 ^ 53)
    (hproto : ∀ b ∈ blogs, b.author ∉ objectPrototypeKeys) :
    ∃ (f : Favorite) (a : String) (m t : Int),
      (favoriteBlog blogs g).1 = Except.ok f
      ∧ (mostLikes blogs g).1 = Except.ok { author := some a, likes := .int m }
      ∧ totalLikes blogs = .int t
      ∧ f.likes ≤ m ∧ m ≤ t := by
  obtain ⟨f, hf, hfav, _⟩ := favoriteBlog_spec blogs g hne
  obtain ⟨a, _, hres, hle, _⟩ := mostLikes_spec blogs g hne hpos hbound hproto
  have htot : totalLikes blogs = .int (blogs.map (fun b => b.likes)).sum := by
    apply totalLikes_exact
    have := natAbs_sum_of_nonneg blogs hpos
    omega
  refine ⟨_, a, _, _, by rw [hfav], hres, htot, ?_, authorLikes_le_sum blogs hpos a⟩
  exact le_trans (likes_le_authorLikes blogs hpos f hf) (hle f hf)

theorem mostBlogs_bounds_of_plain_authors (blogs : List Blog) (g : Globals) (hne : blogs ≠ [])
    (hproto : ∀ b ∈ blogs, b.author ∉ objectPrototypeKeys) :
    ∃ (a : String) (n : Nat),
      (mostBlogs blogs g).1 = Except.ok { author := some a, blogs := .int n }
      ∧ 1 ≤ n ∧ n ≤ blogs.length
      ∧ (n = blogs.length ↔ ∀ b ∈ blogs, ∀ b' ∈ blogs, b.author = b'.author) := by
  obtain ⟨a, hmem, hres, _, _⟩ := mostBlogs_spec blogs g hne hproto
  obtain ⟨b0, hb0, hb0a⟩ := List.mem_map.1 hmem
  refine ⟨a, authorBlogs a blogs, hres, ?_, ?_, ?_⟩
  · unfold authorBlogs
    apply List.length_pos_of_mem (a := b0)
    exact List.mem_filter.2 ⟨hb0, by simpa using hb0a⟩
  · exact List.length_filter_le _ _
  · unfold authorBlogs
    constructor
    · intro h b hb b' hb'
      have hall : blogs.filter (fun b => b.author = a) = blogs :=
        (List.filter_sublist blogs).eq_of_length h
      rw [List.filter_eq_self] at hall
      have h1 : b.author = a := by simpa using hall b hb
      have h2 : b'.author = a := by simpa using hall b' hb'
      rw [h1, h2]
    · intro h
      have hall : blogs.filter (fun b => b.author = a) = blogs := by
        rw [List.filter_eq_self]
        intro b hb
        simpa using (h b hb b0 hb0).trans hb0a
      rw [hall]

theorem single_record_of_plain_author (b : Blog) (g : Globals)
    (hpos : 0 ≤ b.likes) (hbound : b.likes ≤ 2 ^ 53)
    (hproto : b.author ∉ objectPrototypeKeys) :
    totalLikes [b] = .int b.likes
    ∧ (favoriteBlog [b] g).1
        = Except.ok { title := b.title, author := b.author, likes := b.likes }
    ∧ (mostBlogs [b] g).1 = Except.ok { author := some b.author, blogs := .int 1 }
    ∧ (mostLikes [b] g).1 = Except.ok { author := some b.author, likes := .int b.likes } := by
  have hp : ∀ b' ∈ [b], b'.author ∉ objectPrototypeKeys := by
    intro b' hb'
    rw [List.mem_singleton.1 hb']
    exact hproto
  have hpos' : ∀ b' ∈ [b], 0 ≤ b'.likes := by
    intro b' hb'
    rw [List.mem_singleton.1 hb']
    exact hpos
  refine ⟨?_, ?_, ?_, ?_⟩
  · have := totalLikes_exact [b] (by simp; omega)
    simpa using this
  · obtain ⟨f, hf, hfav, _⟩ := favoriteBlog_spec [b] g (by simp)
    rw [List.mem_singleton.1 hf] at hfav
    rw [hfav]
  · obtain ⟨a, hmem, hres, _, _⟩ := mostBlogs_spec [b] g (by simp) hp
    have ha : a = b.author := by simpa using hmem
    subst ha
    rw [hres]
    simp [authorBlogs]
  · obtain ⟨a, hmem, hres, _, _⟩ := mostLikes_spec [b] g (by simp) hpos' (by simpa using hbound) hp
    have ha : a = b.author := by simpa using hmem
    subst ha
    rw [hres]
    simp [authorLikes]

theorem statistics_succeed_of_plain_authors (blogs : List Blog) (g : Globals) (hne : blogs ≠ [])
    (hpos : ∀ b ∈ blogs, 0 ≤ b.likes)
    (hbound : (blogs.map (fun b => b.likes)).sum ≤ 2 ^ 53)
    (hproto : ∀ b ∈ blogs, b.author ∉ objectPrototypeKeys) :
    (∃ f, (favoriteBlog blogs g).1 = Except.ok f)
    ∧ (∃ a n, (mostBlogs blogs g).1 = Except.ok { author := some a, blogs := .int n })
    ∧ (∃ a n, (mostLikes blogs g).1 = Except.ok { author := some a, likes := .int n }) := by
  obtain ⟨f, _, hfav, _⟩ := favoriteBlog_spec blogs g hne
  obtain ⟨a, _, hres, _, _⟩ := mostBlogs_spec blogs g hne hproto
  obtain ⟨a', _, hres', _, _⟩ := mostLikes_spec blogs g hne hpos hbound hproto
  exact ⟨⟨_, by rw [hfav]⟩, ⟨a, _, hres⟩, ⟨a', _, hres'⟩⟩


/-! ## The claims -/

/-- Claim C1 fails as stated: the three records of `largeLikes` have likes
`2^53`, `1` and `1`, all of them doubles, whose sum is `2^53 + 2`, and
`totalLikes` returns `2^53`: each addition of `1` to `2^53` rounds back to
`2^53`. -/
theorem totalLikes_rounds_large_sum :
    (∀ b ∈ largeLikes, representable b.likes ∧ 0 ≤ b.likes)
    ∧ totalLikes largeLikes = .int 9007199254740992
    ∧ (largeLikes.map (fun b => b.likes)).sum = 9007199254740994 := by
  decide

/-- Claim C1 as amended: for every sequence of blog records whose likes have
absolute values summing to at most `2^53`, `totalLikes` equals the sum of the
`likes` fields of all records, and `totalLikes []` is `0`. -/
theorem totalLikes_eq_sum_of_bounded (blogs : List Blog)
    (hbound : (blogs.map (fun b => b.likes.natAbs)).sum ≤ 2 ^ 53) :
    totalLikes blogs = .int (blogs.map (fun b => b.likes)).sum ∧ totalLikes [] = .int 0 :=
  ⟨totalLikes_exact blogs hbound, rfl⟩

/-- Witness of the amended claim C1 on `sampleBlogs`, whose likes sum to 22. -/
theorem totalLikes_eq_sum_of_bounded_witness :
    (sampleBlogs.map (fun b => b.likes.natAbs)).sum ≤ 2 ^ 53
    ∧ totalLikes sampleBlogs = .int (sampleBlogs.map (fun b => b.likes)).sum
    ∧ totalLikes [] = .int 0 :=
  ⟨by decide, totalLikes_eq_sum_of_bounded sampleBlogs (by decide)⟩

/-- Claim C2: on a non-empty sequence `favoriteBlog` returns the title, author
and likes of the record at an index `i` whose likes are the maximum of the
sequence (no record has more) and before which every record has strictly
fewer likes: the first maximal record in input order. -/
theorem favoriteBlog_first_max (blogs : List Blog) (g : Globals) (hne : blogs ≠ []) :
    ∃ (i : Nat) (hi : i < blogs.length),
      (favoriteBlog blogs g).1
        = Except.ok { title := (blogs.get ⟨i, hi⟩).title, author := (blogs.get ⟨i, hi⟩).author,
                      likes := (blogs.get ⟨i, hi⟩).likes }
      ∧ (∀ b ∈ blogs, b.likes ≤ (blogs.get ⟨i, hi⟩).likes)
      ∧ (∀ (j : Nat) (hj : j < blogs.length), j < i →
          (blogs.get ⟨j, hj⟩).likes < (blogs.get ⟨i, hi⟩).likes) := by
  have hne' : blogs.map (fun b => b.likes) ≠ [] := by simpa using hne
  obtain ⟨m, hm, hmem, hle⟩ := mathMax_map_int _ hne'
  have hm' : mathMax (blogs.map (fun blog => JSNum.int blog.likes)) = JSNum.int m := by
    rw [← hm, List.map_map]; rfl
  obtain ⟨b0, hb0, hb0m⟩ := List.mem_map.1 hmem
  have hsome : (blogs.find? (fun blog => geNum blog.likes (JSNum.int m))).isSome := by
    rw [List.find?_isSome]
    exact ⟨b0, hb0, by simp [geNum, hb0m]⟩
  obtain ⟨f, hf⟩ := Option.isSome_iff_exists.1 hsome
  obtain ⟨hpf, as, bs, hsplit, hbefore⟩ := List.find?_eq_some.1 hf
  have hfm : f.likes = m := by
    have h1 : m ≤ f.likes := by simpa [geNum] using hpf
    have h2 : f.likes ≤ m := hle _ (List.mem_map.2 ⟨f, by rw [hsplit]; simp, rfl⟩)
    omega
  have hi : as.length < blogs.length := by rw [hsplit]; simp
  have hget : blogs.get ⟨as.length, hi⟩ = f := by
    subst hsplit
    simp [List.getElem_append_right]
  refine ⟨as.length, hi, ?_, ?_, ?_⟩
  · simp only [favoriteBlog, hm', hf, hget]
  · intro b hb
    rw [hget, hfm]
    exact hle _ (List.mem_map.2 ⟨b, hb, rfl⟩)
  · intro j hj hji
    rw [hget, hfm]
    have hmemj : blogs.get ⟨j, hj⟩ ∈ as := by
      have : blogs.get ⟨j, hj⟩ = as.get ⟨j, hji⟩ := by
        subst hsplit
        simp [List.getElem_append_left, hji]
      rw [this]; exact List.get_mem _ _ _
    have := hbefore _ hmemj
    simpa [geNum] using this

/-- Witness of claim C2 on `sampleBlogs`, where two records tie at 7 likes. -/
theorem favoriteBlog_first_max_witness :
    sampleBlogs ≠ [] ∧
    ∃ (i : Nat) (hi : i < sampleBlogs.length),
      (favoriteBlog sampleBlogs noGlobals).1
        = Except.ok { title := (sampleBlogs.get ⟨i, hi⟩).title,
                      author := (sampleBlogs.get ⟨i, hi⟩).author,
                      likes := (sampleBlogs.get ⟨i, hi⟩).likes }
      ∧ (∀ b ∈ sampleBlogs, b.likes ≤ (sampleBlogs.get ⟨i, hi⟩).likes)
      ∧ (∀ (j : Nat) (hj : j < sampleBlogs.length), j < i →
          (sampleBlogs.get ⟨j, hj⟩).likes < (sampleBlogs.get ⟨i, hi⟩).likes) :=
  ⟨by decide, favoriteBlog_first_max sampleBlogs noGlobals (by decide)⟩

/-- Claim C3 at the failing input: for the single record of `prototypeAuthor`,
whose author `constructor` has one record, `mostBlogs` returns
`{author: undefined, blogs: NaN}` instead of `{author: "constructor", blogs: 1}`. -/
theorem mostBlogs_prototype_author :
    (mostBlogs prototypeAuthor noGlobals).1 = Except.ok { author := none, blogs := .nan }
    ∧ authorBlogs "constructor" prototypeAuthor = 1 := by
  decide

/-- Claim C4 fails as stated: in `numeralAuthors` the authors `1` and `0` both
have one record, `1` appears first, and `mostBlogs` returns `0`. -/
theorem mostBlogs_tie_not_first_appearance :
    (mostBlogs numeralAuthors noGlobals).1 = Except.ok { author := some "0", blogs := .int 1 }
    ∧ authorBlogs "1" numeralAuthors = authorBlogs "0" numeralAuthors
    ∧ firstAppearance "1" numeralAuthors < firstAppearance "0" numeralAuthors := by
  decide

/-- Claim C4 as amended: on a non-empty sequence none of whose authors is named
like a member of `Object.prototype`, `mostBlogs` returns an author of the
sequence with its number of records, no author has more records, and every
other author with as many records comes later in the enumeration order of the
keys (array-index names first by ascending value, then the other names by
first appearance).  In particular, when no author name is an array index the
returned author is, among those with the maximum, the one appearing first. -/
theorem mostBlogs_tie_enumeration_order (blogs : List Blog) (g : Globals) (hne : blogs ≠ [])
    (hproto : ∀ b ∈ blogs, b.author ∉ objectPrototypeKeys) :
    ∃ a, a ∈ blogs.map (fun b => b.author)
      ∧ (mostBlogs blogs g).1 = Except.ok { author := some a, blogs := .int (authorBlogs a blogs) }
      ∧ (∀ b ∈ blogs, authorBlogs b.author blogs ≤ authorBlogs a blogs)
      ∧ (∀ b ∈ blogs, b.author ≠ a → authorBlogs b.author blogs = authorBlogs a blogs →
          keyBefore (blogs.map (fun b => b.author)) a b.author)
      ∧ ((∀ b ∈ blogs, arrayIndex b.author = none) →
          ∀ b ∈ blogs, authorBlogs b.author blogs = authorBlogs a blogs →
            firstAppearance a blogs ≤ firstAppearance b.author blogs) := by
  obtain ⟨a, hmem, hres, hle, htie⟩ := mostBlogs_spec blogs g hne hproto
  refine ⟨a, hmem, hres, hle, htie, ?_⟩
  intro hnamed b hb hw
  by_cases hba : b.author = a
  · rw [hba]
  · obtain ⟨b', hb', hba'⟩ := List.mem_map.1 hmem
    have ha : arrayIndex a = none := hba' ▸ hnamed b' hb'
    exact le_of_lt (firstAppearance_of_keyBefore blogs a b.author ha (hnamed b hb)
      (htie b hb hba hw))

/-- Witness of the amended claim C4 on `tiedBlogs`, where three authors have
one record each. -/
theorem mostBlogs_tie_enumeration_order_witness :
    tiedBlogs ≠ [] ∧ (∀ b ∈ tiedBlogs, b.author ∉ objectPrototypeKeys) ∧
    ∃ a, a ∈ tiedBlogs.map (fun b => b.author)
      ∧ (mostBlogs tiedBlogs noGlobals).1
          = Except.ok { author := some a, blogs := .int (authorBlogs a tiedBlogs) }
      ∧ (∀ b ∈ tiedBlogs, authorBlogs b.author tiedBlogs ≤ authorBlogs a tiedBlogs)
      ∧ (∀ b ∈ tiedBlogs, b.author ≠ a →
          authorBlogs b.author tiedBlogs = authorBlogs a tiedBlogs →
          keyBefore (tiedBlogs.map (fun b => b.author)) a b.author)
      ∧ ((∀ b ∈ tiedBlogs, arrayIndex b.author = none) →
          ∀ b ∈ tiedBlogs, authorBlogs b.author tiedBlogs = authorBlogs a tiedBlogs →
            firstAppearance a tiedBlogs ≤ firstAppearance b.author tiedBlogs) :=
  ⟨by decide, by decide,
    mostBlogs_tie_enumeration_order tiedBlogs noGlobals (by decide) (by decide)⟩

/-- Claim C5 at the failing input: for the single record of `prototypeAuthor`,
whose author `constructor` has 5 likes, `mostLikes` returns
`{author: undefined, likes: NaN}` instead of `{author: "constructor", likes: 5}`. -/
theorem mostLikes_prototype_author :
    (mostLikes prototypeAuthor noGlobals).1 = Except.ok { author := none, likes := .nan }
    ∧ (∀ b ∈ prototypeAuthor, 0 ≤ b.likes)
    ∧ authorLikes "constructor" prototypeAuthor = 5 := by
  decide

/-- Claim C6 fails as stated: in `numeralAuthors` the authors `1` and `0` both
have 1 like in total, `1` appears first, and `mostLikes` returns `0`. -/
theorem mostLikes_tie_not_first_appearance :
    (mostLikes numeralAuthors noGlobals).1 = Except.ok { author := some "0", likes := .int 1 }
    ∧ (∀ b ∈ numeralAuthors, 0 ≤ b.likes)
    ∧ authorLikes "1" numeralAuthors = authorLikes "0" numeralAuthors
    ∧ firstAppearance "1" numeralAuthors < firstAppearance "0" numeralAuthors := by
  decide

/-- The accumulated likes round as well: in `largeLikesTwoAuthors` author `A`
has likes `2^53`, `1`, `1` and author `B` has `2^53 + 2`; the total kept for
`A` stays at `2^53` and `mostLikes` returns `B`. -/
theorem mostLikes_rounds_large_sum :
    (∀ b ∈ largeLikesTwoAuthors, representable b.likes ∧ 0 ≤ b.likes)
    ∧ (mostLikes largeLikesTwoAuthors noGlobals).1
        = Except.ok { author := some "B", likes := .int 9007199254740994 }
    ∧ authorLikes "A" largeLikesTwoAuthors = 9007199254740994
    ∧ authorLikes "B" largeLikesTwoAuthors = 9007199254740994 := by
  decide

/-- Claim C6 as amended: on a non-empty sequence with non-negative likes whose
sum is at most `2^53`, none of whose authors is named like a member of
`Object.prototype`, `mostLikes` returns an author of the sequence with the sum
of its likes, no author has a larger sum, and every other author with the
same sum comes later in the enumeration order of the keys (array-index names
first by ascending value, then the other names by first appearance).  In
particular, when no author name is an array index the returned author is,
among those with the maximum, the one appearing first. -/
theorem mostLikes_tie_enumeration_order_of_bounded (blogs : List Blog) (g : Globals)
    (hne : blogs ≠ [])
    (hpos : ∀ b ∈ blogs, 0 ≤ b.likes)
    (hbound : (blogs.map (fun b => b.likes)).sum ≤ 2 ^ 53)
    (hproto : ∀ b ∈ blogs, b.author ∉ objectPrototypeKeys) :
    ∃ a, a ∈ blogs.map (fun b => b.author)
      ∧ (mostLikes blogs g).1 = Except.ok { author := some a, likes := .int (authorLikes a blogs) }
      ∧ (∀ b ∈ blogs, authorLikes b.author blogs ≤ authorLikes a blogs)
      ∧ (∀ b ∈ blogs, b.author ≠ a → authorLikes b.author blogs = authorLikes a blogs →
          keyBefore (blogs.map (fun b => b.author)) a b.author)
      ∧ ((∀ b ∈ blogs, arrayIndex b.author = none) →
          ∀ b ∈ blogs, authorLikes b.author blogs = authorLikes a blogs →
            firstAppearance a blogs ≤ firstAppearance b.author blogs) := by
  obtain ⟨a, hmem, hres, hle, htie⟩ := mostLikes_spec blogs g hne hpos hbound hproto
  refine ⟨a, hmem, hres, hle, htie, ?_⟩
  intro hnamed b hb hw
  by_cases hba : b.author = a
  · rw [hba]
  · obtain ⟨b', hb', hba'⟩ := List.mem_map.1 hmem
    have ha : arrayIndex a = none := hba' ▸ hnamed b' hb'
    exact le_of_lt (firstAppearance_of_keyBefore blogs a b.author ha (hnamed b hb)
      (htie b hb hba hw))

/-- Witness of the amended claim C6 on `tiedBlogs`, where three authors have
4 likes each. -/
theorem mostLikes_tie_enumeration_order_of_bounded_witness :
    tiedBlogs ≠ [] ∧ (∀ b ∈ tiedBlogs, 0 ≤ b.likes)
    ∧ (tiedBlogs.map (fun b => b.likes)).sum ≤ 2 ^ 53
    ∧ (∀ b ∈ tiedBlogs, b.author ∉ objectPrototypeKeys) ∧
    ∃ a, a ∈ tiedBlogs.map (fun b => b.author)
      ∧ (mostLikes tiedBlogs noGlobals).1
          = Except.ok { author := some a, likes := .int (authorLikes a tiedBlogs) }
      ∧ (∀ b ∈ tiedBlogs, authorLikes b.author tiedBlogs ≤ authorLikes a tiedBlogs)
      ∧ (∀ b ∈ tiedBlogs, b.author ≠ a →
          authorLikes b.author tiedBlogs = authorLikes a tiedBlogs →
          keyBefore (tiedBlogs.map (fun b => b.author)) a b.author)
      ∧ ((∀ b ∈ tiedBlogs, arrayIndex b.author = none) →
          ∀ b ∈ tiedBlogs, authorLikes b.author tiedBlogs = authorLikes a tiedBlogs →
            firstAppearance a tiedBlogs ≤ firstAppearance b.author tiedBlogs) :=
  ⟨by decide, by decide, by decide, by decide,
    mostLikes_tie_enumeration_order_of_bounded tiedBlogs noGlobals (by decide) (by decide)
      (by decide) (by decide)⟩

/-- Claim C7: on the empty sequence `favoriteBlog` throws (a `TypeError`, from
reading `title` of `undefined`) and returns no record, whatever the globals. -/
theorem favoriteBlog_empty_throws (g : Globals) :
    (favoriteBlog [] g).1 = Except.error JSError.typeError
    ∧ ∀ r : Favorite, (favoriteBlog [] g).1 ≠ Except.ok r := by
  refine ⟨rfl, ?_⟩
  intro r h
  cases h

/-- Claim C8 fails as stated: `mostBlogs []` does not throw. -/
theorem mostBlogs_empty_no_failure :
    ¬ ∃ e : JSError, (mostBlogs [] noGlobals).1 = Except.error e := by
  rintro ⟨e, h⟩
  cases h

/-- Claim C8 as amended: on the empty sequence `mostBlogs` returns
`{author: undefined, blogs: -Infinity}`, whatever the globals. -/
theorem mostBlogs_empty_returns (g : Globals) :
    (mostBlogs [] g).1 = Except.ok { author := none, blogs := .negInf } :=
  rfl

/-- Claim C9 fails as stated: `mostLikes []` does not throw. -/
theorem mostLikes_empty_no_failure :
    ¬ ∃ e : JSError, (mostLikes [] noGlobals).1 = Except.error e := by
  rintro ⟨e, h⟩
  cases h

/-- Claim C9 as amended: on the empty sequence `mostLikes` returns
`{author: undefined, likes: -Infinity}`, whatever the globals. -/
theorem mostLikes_empty_returns (g : Globals) :
    (mostLikes [] g).1 = Except.ok { author := none, likes := .negInf } :=
  rfl

/-- Claim C10 fails as stated: `largeLikesReordered` is a permutation of
`largeLikes` (likes `2^53`, `1`, `1`, all of them doubles); `totalLikes` returns
`2^53` on the one and `2^53 + 2` on the other. -/
theorem totalLikes_order_dependent :
    List.Perm largeLikes largeLikesReordered
    ∧ (∀ b ∈ largeLikes, representable b.likes ∧ 0 ≤ b.likes)
    ∧ totalLikes largeLikes = .int 9007199254740992
    ∧ totalLikes largeLikesReordered = .int 9007199254740994 := by
  decide

/-- Claim C10 as amended: for every sequence of blog records whose likes have
absolute values summing to at most `2^53`, `totalLikes` is invariant under
reordering: every permutation of the sequence has the same total. -/
theorem totalLikes_perm_of_bounded (blogs blogs' : List Blog) (h : List.Perm blogs blogs')
    (hbound : (blogs.map (fun b => b.likes.natAbs)).sum ≤ 2 ^ 53) :
    totalLikes blogs' = totalLikes blogs := by
  have hbound' : (blogs'.map (fun b => b.likes.natAbs)).sum ≤ 2 ^ 53 := by
    rw [← (h.map (fun b => b.likes.natAbs)).sum_eq]
    exact hbound
  rw [totalLikes_exact blogs hbound, totalLikes_exact blogs' hbound',
    (h.map (fun b => b.likes)).sum_eq]

/-- Witness of the amended claim C10: `sampleBlogs` and its reversal. -/
theorem totalLikes_perm_of_bounded_witness :
    List.Perm sampleBlogs sampleBlogs.reverse
    ∧ (sampleBlogs.map (fun b => b.likes.natAbs)).sum ≤ 2 ^ 53
    ∧ totalLikes sampleBlogs.reverse = totalLikes sampleBlogs :=
  ⟨(List.reverse_perm sampleBlogs).symm, by decide,
    totalLikes_perm_of_bounded sampleBlogs sampleBlogs.reverse
      (List.reverse_perm sampleBlogs).symm (by decide)⟩

/-- Claim C11 at the failing input: called on `sampleBlogs` with no global
assigned, `favoriteBlog` leaves the record it found in the global `favorite`,
and `mostBlogs` and `mostLikes` leave the position of the maximum in the
global `maxIndex`; `dummy` and `totalLikes` have no access to the globals. -/
theorem statistics_write_globals :
    (favoriteBlog sampleBlogs noGlobals).2
      = { favorite := some (some { title := "Second", author := "B", url := "b.example/1",
                                   likes := 7 }),
          maxIndex := none }
    ∧ (mostBlogs sampleBlogs noGlobals).2 = { favorite := none, maxIndex := some 0 }
    ∧ (mostLikes sampleBlogs noGlobals).2 = { favorite := none, maxIndex := some 0 }
    ∧ (favoriteBlog sampleBlogs noGlobals).2 ≠ noGlobals
    ∧ (mostBlogs sampleBlogs noGlobals).2 ≠ noGlobals
    ∧ (mostLikes sampleBlogs noGlobals).2 ≠ noGlobals := by
  decide

/-- Claim C12 at the failing input: for the single well-formed record of
`prototypeAuthor` nothing throws, but the positional lookup of the maximum
finds no element in `mostBlogs` nor in `mostLikes`: `indexOf` gives `-1` and
the author read at that position is `undefined`. -/
theorem positional_lookup_prototype_author :
    (∀ b ∈ prototypeAuthor, 0 ≤ b.likes)
    ∧ mostBlogs prototypeAuthor noGlobals
        = (Except.ok { author := none, blogs := .nan }, { favorite := none, maxIndex := some (-1) })
    ∧ mostLikes prototypeAuthor noGlobals
        = (Except.ok { author := none, likes := .nan }, { favorite := none, maxIndex := some (-1) })
    ∧ (favoriteBlog prototypeAuthor noGlobals).1
        = Except.ok { title := "First", author := "constructor", likes := 5 } := by
  decide

/-- Claim C13: `dummy` returns the constant `1` for every input, empty or not. -/
theorem dummy_eq_one (blogs : List Blog) : dummy blogs = 1 ∧ dummy [] = 1 :=
  ⟨rfl, rfl⟩

/-- Claim C17 at the failing input: for the single record of `prototypeAuthor`
(5 likes) `favoriteBlog` gives 5 likes, `totalLikes` gives 5 and `mostLikes`
gives `NaN`, so that neither `5 <= NaN` nor `NaN <= 5` holds. -/
theorem likes_chain_prototype_author :
    (∀ b ∈ prototypeAuthor, 0 ≤ b.likes)
    ∧ (favoriteBlog prototypeAuthor noGlobals).1
        = Except.ok { title := "First", author := "constructor", likes := 5 }
    ∧ (mostLikes prototypeAuthor noGlobals).1 = Except.ok { author := none, likes := .nan }
    ∧ totalLikes prototypeAuthor = .int 5
    ∧ JSNum.le (.int 5) .nan = false
    ∧ JSNum.le .nan (totalLikes prototypeAuthor) = false := by
  decide

/-- Claim C18 at the failing input: for the single record of `prototypeAuthor`
`mostBlogs` gives `NaN` records, and `1 <= NaN` does not hold; for two records
of that same author it gives 1, not the length 2. -/
theorem mostBlogs_bounds_prototype_author :
    (mostBlogs prototypeAuthor noGlobals).1 = Except.ok { author := none, blogs := .nan }
    ∧ JSNum.le (.int 1) .nan = false
    ∧ (mostBlogs (prototypeAuthor ++ prototypeAuthor) noGlobals).1
        = Except.ok { author := some "constructor", blogs := .int 1 }
    ∧ (prototypeAuthor ++ prototypeAuthor).length = 2 := by
  decide

/-- Claim C19 at the failing input: for the single record of `prototypeAuthor`
`totalLikes` and `favoriteBlog` agree with the record, while `mostBlogs` and
`mostLikes` return neither its author nor its count or likes. -/
theorem single_record_prototype_author :
    prototypeAuthor
      = [{ title := "First", author := "constructor", url := "c.example", likes := 5 }]
    ∧ totalLikes prototypeAuthor = .int 5
    ∧ (favoriteBlog prototypeAuthor noGlobals).1
        = Except.ok { title := "First", author := "constructor", likes := 5 }
    ∧ (mostBlogs prototypeAuthor noGlobals).1
        ≠ Except.ok { author := some "constructor", blogs := .int 1 }
    ∧ (mostLikes prototypeAuthor noGlobals).1
        ≠ Except.ok { author := some "constructor", likes := .int 5 } := by
  decide


end ListHelper

namespace BlogService

/-! ## Claims on blog creation and user registration -/

/-- Claim C14: for every blog collection and every payload, `create` with no
token presented fails with `MissingToken`, the message contains "token
missing", and the collection is unchanged. -/
theorem create_missing_token (verify : String → Option Identity)
    (newId : List StoredBlog → Nat) (blogs : List StoredBlog) (payload : BlogPayload) :
    ∃ failure : Failure,
      (create verify newId blogs payload none).1 = Except.error failure
      ∧ failure.kind = ErrorKind.MissingToken
      ∧ containsText failure.message "token missing"
      ∧ (create verify newId blogs payload none).2 = blogs :=
  ⟨{ kind := .MissingToken, message := "token missing" }, rfl, rfl, ⟨"", "", by decide⟩, rfl⟩

/-- Claim C15: for every payload with a non-empty title and url and no
`likes`, and every token that verifies, `create` succeeds, the record it
returns is appended to the collection, and that record has `likes = 0`. -/
theorem create_default_likes (verify : String → Option Identity)
    (newId : List StoredBlog → Nat) (blogs : List StoredBlog) (payload : BlogPayload)
    (token title url : String) (identity : Identity)
    (htoken : verify token = some identity)
    (htitle : payload.title = some title) (htitle' : title ≠ "")
    (hurl : payload.url = some url) (hurl' : url ≠ "")
    (hlikes : payload.likes = none) :
    ∃ record : StoredBlog,
      create verify newId blogs payload (some token) = (Except.ok record, blogs ++ [record])
      ∧ record.likes = 0 ∧ record.title = title ∧ record.url = url := by
  refine ⟨{ id := newId blogs, title := title, author := payload.author.getD "", url := url,
            likes := 0, creator := some identity.id }, ?_, rfl, rfl, rfl⟩
  simp [create, htoken, htitle, hurl, hlikes, htitle', hurl']

/-- Witness of claim C15: `samplePayload` created with the token `valid` in an
empty collection. -/
theorem create_default_likes_witness :
    sampleVerify "valid" = some { id := 1, username := "root" }
    ∧ samplePayload.title = some "Valid blog test" ∧ "Valid blog test" ≠ ""
    ∧ samplePayload.url = some "test.com" ∧ "test.com" ≠ ""
    ∧ samplePayload.likes = none
    ∧ ∃ record : StoredBlog,
        create sampleVerify nextId [] samplePayload (some "valid")
          = (Except.ok record, [] ++ [record])
        ∧ record.likes = 0 ∧ record.title = "Valid blog test" ∧ record.url = "test.com" :=
  ⟨by decide, by decide, by decide, by decide, by decide, by decide,
    create_default_likes sampleVerify nextId [] samplePayload "valid" "Valid blog test"
      "test.com" { id := 1, username := "root" } (by decide) (by decide) (by decide)
      (by decide) (by decide) (by decide)⟩

/-- Claim C16: for every user collection, `register` with a username or a
password shorter than 3 characters fails with a `ValidationError` whose
message contains "both username and password must be at least 3 characters
long", and the collection is unchanged. -/
theorem register_too_short (hash : String → String) (newId : List User → Nat)
    (users : List User) (username name password : String)
    (hshort : username.length < 3 ∨ password.length < 3) :
    ∃ failure : Failure,
      (register hash newId users username name password).1 = Except.error failure
      ∧ failure.kind = ErrorKind.ValidationError
      ∧ containsText failure.message
          "both username and password must be at least 3 characters long"
      ∧ (register hash newId users username name password).2 = users := by
  refine ⟨{ kind := .ValidationError,
            message := "both username and password must be at least 3 characters long" },
    ?_, rfl, ⟨"", "", by decide⟩, ?_⟩
  · simp [register, hshort]
  · simp [register, hshort]

/-- Witness of claim C16: the username `rt` and the password `sn` of the
test, against an empty collection. -/
theorem register_too_short_witness :
    ("rt".length < 3 ∨ "sn".length < 3)
    ∧ ∃ failure : Failure,
        (register sampleHash nextId [] "rt" "Superuser" "sn").1 = Except.error failure
        ∧ failure.kind = ErrorKind.ValidationError
        ∧ containsText failure.message
            "both username and password must be at least 3 characters long"
        ∧ (register sampleHash nextId [] "rt" "Superuser" "sn").2 = [] :=
  ⟨by decide, register_too_short sampleHash nextId [] "rt" "Superuser" "sn" (by decide)⟩

end BlogService
